import Mathlib

/-!
# Verification of `xsparseset` (`SparseSet<E, T, S>`)

A shallow embedding of `src/lib.rs` of the `xsparseset` crate, together with
proofs of the specification claims about it.

Modelling conventions:
* Rust `Vec` becomes `List`; `Vec::push` is `++ [x]`, `Vec::pop` is
  `dropLast`/`getLast?`, `Vec::append` drains the argument vector and is
  modelled by returning the emptied leftover lists alongside the new state.
* `NonZeroUsize` is modelled as a `Nat` known (by the invariant) to be
  positive; `NonZeroUsize::new` is `nonZeroUsizeNew`, `NonZeroUsize::get`
  is the identity.
* A panicking operation returns `Option` with `none` meaning "panic".
* The unchecked (`unsafe`) reads `get_unchecked`/`get_unchecked_mut` are
  modelled by `·[i]?`; undefined behaviour on an out-of-range index becomes
  a `none`/no-op branch, and the safety claims prove those branches are
  never taken in reachable states.
* Mutation of `&mut self` becomes explicit state passing: an operation
  returns the new `SparseSet` (paired with its return value, if any).
-/

set_option linter.unusedSectionVars false

set_option linter.unnecessarySimpa false

/-- `NonZeroUsize::new`: `some n` iff `n ≠ 0`. -/
def nonZeroUsizeNew (n : Nat) : Option Nat :=
  if n = 0 then none else some n

/-- Modelled from the spec: the Index Storage backend of §4.1 (the crate's
`SparseStorage` trait and its `VecStorage`/`HashMap`/`BTreeMap` variants live
in `sparse_storage.rs`, which is not among the available sources). All
variants expose identical semantics — a finitely supported map from ids to
optional 1-based slot indices — so the backend is modelled extensionally as
a function `E → Option Nat`. -/
def Storage (E : Type) : Type := E → Option Nat

namespace Storage

variable {E : Type} [DecidableEq E]

/-- Modelled from the spec: `get_index(id) → optional slot index`. No side
effect. -/
def get_index (f : Storage E) (id : E) : Option Nat := f id

/-- Modelled from the spec: `set_index(id, optional slot index)`. Writing
"none" removes the entry; writing a concrete slot index creates or
overwrites it. -/
def set_index (f : Storage E) (id : E) (v : Option Nat) : Storage E :=
  fun x => if x = id then v else f x

/-- Modelled from the spec: `set_indices(ids, start_slot_index)`:
batch-insert ids with consecutively increasing slot indices beginning at
`start_slot_index`, in the order given. -/
def set_indices (f : Storage E) (ids : List E) (start : Nat) : Storage E :=
  match ids with
  | [] => f
  | id :: rest => set_indices (set_index f id (some start)) rest (start + 1)

/-- Modelled from the spec: `swap(id_a, id_b)`: exchange the two ids' stored
slot indices. -/
def swap (f : Storage E) (a b : E) : Storage E :=
  fun x => if x = a then f b else if x = b then f a else f x

/-- Modelled from the spec: `clear()`: drop all entries; subsequent
`get_index` on any id returns absent. -/
def clear (_f : Storage E) : Storage E := fun _ => none

/-- The backend state produced by `Default` (an empty backend: no id
present). -/
def empty : Storage E := fun _ => none

theorem set_index_get_self (f : Storage E) (id : E) (v : Option Nat) :
    (f.set_index id v).get_index id = v := by
  simp [get_index, set_index]

theorem set_index_get_other (f : Storage E) {id x : E} {v : Option Nat}
    (h : x ≠ id) : (f.set_index id v).get_index x = f.get_index x := by
  simp [get_index, set_index, h]

theorem swap_get_fst (f : Storage E) (a b : E) :
    (f.swap a b).get_index a = f.get_index b := by
  simp [get_index, swap]

theorem swap_get_snd (f : Storage E) (a b : E) :
    (f.swap a b).get_index b = f.get_index a := by
  by_cases h : b = a
  · subst h
    simp [get_index, swap]
  · simp [get_index, swap, h]

theorem swap_get_other (f : Storage E) {a b x : E} (hxa : x ≠ a)
    (hxb : x ≠ b) : (f.swap a b).get_index x = f.get_index x := by
  simp [get_index, swap, hxa, hxb]

end Storage

/-- `Vec::swap`-style exchange of two positions of a list (the sparse-set
code only ever calls it with both indices in range; the out-of-range branch
is a no-op). -/
def listSwap {α : Type} (l : List α) (a b : Nat) : List α :=
  if ha : a < l.length then
    if hb : b < l.length then (l.set a (l.get ⟨b, hb⟩)).set b (l.get ⟨a, ha⟩)
    else l
  else l

/-- The core struct of `lib.rs`: one backend plus the two parallel dense
sequences. -/
structure SparseSet (E T : Type) where
  sparse : Storage E
  dense : List E
  data : List T

namespace SparseSet

variable {E T : Type} [DecidableEq E]

/-- `SparseSet::with_storage` (and `Default` when applied to an empty
backend): empty dense sequences over a given backend. -/
def with_storage (sparse_storage : Storage E) : SparseSet E T :=
  ⟨sparse_storage, [], []⟩

/-- `SparseSet::clear`. -/
def clear (s : SparseSet E T) : SparseSet E T :=
  ⟨s.sparse.clear, [], []⟩

/-- `SparseSet::len`. -/
def len (s : SparseSet E T) : Nat := s.dense.length

/-- `SparseSet::is_empty`. -/
def is_empty (s : SparseSet E T) : Bool := s.dense.isEmpty

/-- `SparseSet::contains`. -/
def contains (s : SparseSet E T) (id : E) : Bool :=
  (s.sparse.get_index id).isSome

/-- `SparseSet::get_index`: 0-based dense position of `id`. -/
def get_index (s : SparseSet E T) (id : E) : Option Nat :=
  (s.sparse.get_index id).map (fun x => x - 1)

/-- `SparseSet::get_id`: id at a dense position. -/
def get_id (s : SparseSet E T) (index : Nat) : Option E :=
  s.dense[index]?

/-- `SparseSet::get`: backend lookup then unchecked dense read
(`data.get_unchecked(index)`, modelled as `·[·]?`). -/
def get (s : SparseSet E T) (id : E) : Option T :=
  match s.sparse.get_index id with
  | none => none
  | some k => s.data[k - 1]?

/-- `SparseSet::get_mut`: same index translation as `get`
(`get_unchecked_mut`); modelled by the value the mutable reference denotes. -/
def get_mut (s : SparseSet E T) (id : E) : Option T :=
  match s.get_index id with
  | none => none
  | some index => s.data[index]?

/-- `SparseSet::insert`: replace in place if present (returning the old
value), else append and record slot index `dense.len() + 1`. -/
def insert (s : SparseSet E T) (id : E) (dat : T) : SparseSet E T × Option T :=
  match s.sparse.get_index id with
  | some index =>
    let i := index - 1
    ({ s with data := s.data.set i dat }, s.data[i]?)
  | none =>
    let new_index := nonZeroUsizeNew (s.dense.length + 1)
    ({ s with
        sparse := s.sparse.set_index id new_index,
        dense := s.dense ++ [id],
        data := s.data ++ [dat] }, none)

/-- `SparseSet::insert_batch`: panics (`none`) when the lengths differ, else
appends both vectors wholesale (draining them — `Vec::append` leaves its
argument empty, hence the returned leftover lists) after registering
consecutive slot indices starting at `data.len() + 1`. -/
def insert_batch (s : SparseSet E T) (ids : List E) (data : List T) :
    Option (SparseSet E T × List E × List T) :=
  if ids.length ≠ data.length then none
  else
    let start_index := s.data.length + 1
    some (⟨s.sparse.set_indices ids start_index,
           s.dense ++ ids, s.data ++ data⟩, [], [])

/-- `SparseSet::swap_by_index_unchecked`: no-op when the indices coincide,
else swap the backend entries of the two resident ids and both dense
sequences. The unchecked reads of `dense` are modelled by `·[·]?` with the
out-of-range (UB) branch a no-op. -/
def swap_by_index_unchecked (s : SparseSet E T) (index_a index_b : Nat) :
    SparseSet E T :=
  if index_a = index_b then s
  else
    match s.dense[index_a]?, s.dense[index_b]? with
    | some id_a, some id_b =>
      ⟨s.sparse.swap id_a id_b,
       listSwap s.dense index_a index_b,
       listSwap s.data index_a index_b⟩
    | _, _ => s

/-- `SparseSet::swap_by_index`: bounds-checked swap; `none` models the
panic on an out-of-range index. -/
def swap_by_index (s : SparseSet E T) (index_a index_b : Nat) :
    Option (SparseSet E T) :=
  if index_a ≥ s.len then none
  else if index_b ≥ s.len then none
  else some (s.swap_by_index_unchecked index_a index_b)

/-- `SparseSet::swap_by_entity_id`: do nothing unless both ids are present,
else swap by their (1-based minus 1) dense positions. -/
def swap_by_entity_id (s : SparseSet E T) (id_a id_b : E) : SparseSet E T :=
  match s.sparse.get_index id_a, s.sparse.get_index id_b with
  | some index_a, some index_b =>
    s.swap_by_index_unchecked (index_a - 1) (index_b - 1)
  | _, _ => s

/-- `SparseSet::swap_remove_by_index`: `none` when `get_id` fails; else swap
with the last position, drop the removed id from the backend, and pop both
dense sequences, returning the popped value. The inner `swap_by_index`
cannot panic here; its (unreachable) panic branch is modelled as leaving
the state unchanged. -/
def swap_remove_by_index (s : SparseSet E T) (index : Nat) :
    SparseSet E T × Option T :=
  match s.get_id index with
  | none => (s, none)
  | some id =>
    match s.swap_by_index index (s.len - 1) with
    | none => (s, none)
    | some s1 =>
      (⟨s1.sparse.set_index id none, s1.dense.dropLast, s1.data.dropLast⟩,
       s1.data.getLast?)

/-- `SparseSet::swap_remove_by_id`: translate the id and defer to
`swap_remove_by_index`. -/
def swap_remove_by_id (s : SparseSet E T) (id : E) : SparseSet E T × Option T :=
  match s.get_index id with
  | none => (s, none)
  | some index => s.swap_remove_by_index index

end SparseSet

/-! ## Basic facts about the modelling helpers -/

theorem nonZeroUsizeNew_succ (n : Nat) : nonZeroUsizeNew (n + 1) = some (n + 1) := by
  simp [nonZeroUsizeNew]

theorem listSwap_length {α : Type} (l : List α) (a b : Nat) :
    (listSwap l a b).length = l.length := by
  unfold listSwap
  split <;> try rfl
  split <;> simp

theorem listSwap_eq {α : Type} {l : List α} {a b : Nat}
    (ha : a < l.length) (hb : b < l.length) :
    listSwap l a b = (l.set a (l.get ⟨b, hb⟩)).set b (l.get ⟨a, ha⟩) := by
  unfold listSwap
  rw [dif_pos ha, dif_pos hb]

theorem listSwap_getElem?_fst {α : Type} {l : List α} {a b : Nat}
    (ha : a < l.length) (hb : b < l.length) :
    (listSwap l a b)[a]? = l[b]? := by
  rw [listSwap_eq ha hb]
  by_cases hab : a = b
  · subst hab
    rw [List.set_set, List.getElem?_set_self ha, List.getElem?_eq_getElem ha]
    rfl
  · rw [List.getElem?_set_ne (Ne.symm hab), List.getElem?_set_self ha,
      List.getElem?_eq_getElem hb]
    rfl

theorem listSwap_getElem?_snd {α : Type} {l : List α} {a b : Nat}
    (ha : a < l.length) (hb : b < l.length) :
    (listSwap l a b)[b]? = l[a]? := by
  rw [listSwap_eq ha hb]
  have hb' : b < (l.set a (l.get ⟨b, hb⟩)).length := by simpa using hb
  rw [List.getElem?_set_self hb', List.getElem?_eq_getElem ha]
  rfl

theorem listSwap_getElem?_other {α : Type} {l : List α} {a b c : Nat}
    (hca : c ≠ a) (hcb : c ≠ b) :
    (listSwap l a b)[c]? = l[c]? := by
  unfold listSwap
  split <;> try rfl
  split <;> try rfl
  rw [List.getElem?_set_ne (Ne.symm hcb), List.getElem?_set_ne (Ne.symm hca)]

namespace SparseSet

variable {E T : Type} [DecidableEq E]

/-! ## The bijection invariant (§3 of the spec) -/

/-- The core bijection invariant: the two dense sequences have equal length;
every backend entry is a positive slot index whose dense position holds
exactly that id; and every resident id's backend entry is its dense
position plus one. -/
def Inv (s : SparseSet E T) : Prop :=
  s.dense.length = s.data.length ∧
  (∀ id k, s.sparse.get_index id = some k →
    0 < k ∧ k - 1 < s.dense.length ∧ s.dense[k - 1]? = some id) ∧
  (∀ j id, s.dense[j]? = some id → s.sparse.get_index id = some (j + 1))

theorem Inv.dense_inj {s : SparseSet E T} (h : Inv s) {i j : Nat} {id : E}
    (hi : s.dense[i]? = some id) (hj : s.dense[j]? = some id) : i = j := by
  have h1 := h.2.2 i id hi
  have h2 := h.2.2 j id hj
  rw [h1] at h2
  have h3 := Option.some.inj h2
  omega

end SparseSet

set_option linter.unusedSectionVars false

namespace SparseSet

variable {E T : Type} [DecidableEq E]

/-! ## Preservation of the invariant by the public operations -/

theorem inv_with_storage_empty :
    Inv (with_storage (E := E) (T := T) Storage.empty) := by
  refine ⟨rfl, ?_, ?_⟩
  · intro id k hk
    exact absurd hk (by simp [Storage.get_index, Storage.empty, with_storage])
  · intro j id hj
    simp [with_storage] at hj

theorem inv_clear (s : SparseSet E T) : Inv s.clear := by
  refine ⟨rfl, ?_, ?_⟩
  · intro id k hk
    exact absurd hk (by simp [Storage.get_index, Storage.clear, clear])
  · intro j id hj
    simp [clear] at hj

theorem inv_insert_fresh {s : SparseSet E T} (h : Inv s) {id : E}
    (hid : s.sparse.get_index id = none) (v : T) :
    Inv ⟨s.sparse.set_index id (some (s.dense.length + 1)),
         s.dense ++ [id], s.data ++ [v]⟩ := by
  obtain ⟨hlen, hs, hd⟩ := h
  refine ⟨by simp [hlen], ?_, ?_⟩
  · intro id' k hk
    by_cases hcase : id' = id
    · subst hcase
      have hk' : some (s.dense.length + 1) = some k := by
        simpa [Storage.get_index, Storage.set_index] using hk
      obtain rfl := (Option.some.inj hk').symm
      refine ⟨by omega, by simp, ?_⟩
      simpa using List.getElem?_concat_length s.dense id'
    · have hk' : s.sparse.get_index id' = some k := by
        simpa [Storage.get_index, Storage.set_index, hcase] using hk
      obtain ⟨hk0, hklt, hkd⟩ := hs id' k hk'
      refine ⟨hk0, by simp; omega, ?_⟩
      rw [List.getElem?_append_left hklt]
      exact hkd
  · intro j id' hj
    by_cases hjlt : j < s.dense.length
    · rw [List.getElem?_append_left hjlt] at hj
      have h1 := hd j id' hj
      have hne : id' ≠ id := by
        intro e
        rw [e, hid] at h1
        cases h1
      simpa [Storage.get_index, Storage.set_index, hne] using h1
    · have hjlen : j < s.dense.length + 1 := by
        have := (List.getElem?_eq_some_iff.mp hj).1
        simpa using this
      have hj0 : j = s.dense.length := by omega
      subst hj0
      rw [List.getElem?_concat_length] at hj
      obtain rfl := Option.some.inj hj
      simp [Storage.get_index, Storage.set_index]

theorem inv_insert (s : SparseSet E T) (id : E) (v : T) (h : Inv s) :
    Inv (s.insert id v).1 := by
  unfold insert
  cases hx : s.sparse.get_index id with
  | none =>
    simp only [nonZeroUsizeNew_succ]
    exact inv_insert_fresh h hx v
  | some k =>
    obtain ⟨hlen, hs, hd⟩ := h
    exact ⟨by simp [hlen], hs, hd⟩

end SparseSet

namespace SparseSet

variable {E T : Type} [DecidableEq E]

theorem swap_by_index_unchecked_eq {s : SparseSet E T} {a b : Nat}
    (ha : a < s.len) (hb : b < s.len) (hab : a ≠ b) :
    s.swap_by_index_unchecked a b =
      ⟨s.sparse.swap (s.dense.get ⟨a, ha⟩) (s.dense.get ⟨b, hb⟩),
       listSwap s.dense a b, listSwap s.data a b⟩ := by
  unfold swap_by_index_unchecked
  rw [if_neg hab, List.getElem?_eq_getElem ha, List.getElem?_eq_getElem hb]
  rfl

theorem swap_by_index_unchecked_dense_length (s : SparseSet E T) (a b : Nat) :
    (s.swap_by_index_unchecked a b).dense.length = s.dense.length := by
  unfold swap_by_index_unchecked
  split
  · rfl
  · split
    · exact listSwap_length _ _ _
    · rfl

theorem swap_by_index_unchecked_data_length (s : SparseSet E T) (a b : Nat) :
    (s.swap_by_index_unchecked a b).data.length = s.data.length := by
  unfold swap_by_index_unchecked
  split
  · rfl
  · split
    · exact listSwap_length _ _ _
    · rfl

theorem inv_swap_by_index_unchecked {s : SparseSet E T} {a b : Nat} (h : Inv s)
    (ha : a < s.len) (hb : b < s.len) :
    Inv (s.swap_by_index_unchecked a b) := by
  by_cases hab : a = b
  · subst hab
    unfold swap_by_index_unchecked
    rw [if_pos rfl]
    exact h
  · have hdA : s.dense[a]? = some (s.dense.get ⟨a, ha⟩) :=
      List.getElem?_eq_getElem ha
    have hdB : s.dense[b]? = some (s.dense.get ⟨b, hb⟩) :=
      List.getElem?_eq_getElem hb
    have hsA : s.sparse.get_index (s.dense.get ⟨a, ha⟩) = some (a + 1) :=
      h.2.2 a _ hdA
    have hsB : s.sparse.get_index (s.dense.get ⟨b, hb⟩) = some (b + 1) :=
      h.2.2 b _ hdB
    have hABne : s.dense.get ⟨a, ha⟩ ≠ s.dense.get ⟨b, hb⟩ := by
      intro e
      exact hab (h.dense_inj (e ▸ hdA) hdB)
    rw [swap_by_index_unchecked_eq ha hb hab]
    obtain ⟨hlen, hs, hd⟩ := h
    refine ⟨by rw [listSwap_length, listSwap_length, hlen], ?_, ?_⟩
    · intro id k hk
      by_cases h1 : id = s.dense.get ⟨a, ha⟩
      · subst h1
        rw [Storage.swap_get_fst, hsB] at hk
        obtain rfl := (Option.some.inj hk).symm
        refine ⟨by omega, by rw [listSwap_length]; simpa using hb, ?_⟩
        simpa using (listSwap_getElem?_snd ha hb).trans hdA
      · by_cases h2 : id = s.dense.get ⟨b, hb⟩
        · subst h2
          rw [Storage.swap_get_snd, hsA] at hk
          obtain rfl := (Option.some.inj hk).symm
          refine ⟨by omega, by rw [listSwap_length]; simpa using ha, ?_⟩
          simpa using (listSwap_getElem?_fst ha hb).trans hdB
        · rw [Storage.swap_get_other _ h1 h2] at hk
          obtain ⟨hk0, hklt, hkd⟩ := hs id k hk
          have hka : k - 1 ≠ a := by
            intro e
            apply h1
            rw [e] at hkd
            exact Option.some.inj (hkd.symm.trans hdA)
          have hkb : k - 1 ≠ b := by
            intro e
            apply h2
            rw [e] at hkd
            exact Option.some.inj (hkd.symm.trans hdB)
          refine ⟨hk0, by rw [listSwap_length]; exact hklt, ?_⟩
          rw [listSwap_getElem?_other hka hkb]
          exact hkd
    · intro j id hj
      by_cases hja : j = a
      · subst hja
        rw [listSwap_getElem?_fst ha hb, hdB] at hj
        obtain rfl := (Option.some.inj hj).symm
        rw [Storage.swap_get_snd]
        exact hsA
      · by_cases hjb : j = b
        · subst hjb
          rw [listSwap_getElem?_snd ha hb, hdA] at hj
          obtain rfl := (Option.some.inj hj).symm
          rw [Storage.swap_get_fst]
          exact hsB
        · rw [listSwap_getElem?_other hja hjb] at hj
          have h1 := hd j id hj
          have hia : id ≠ s.dense.get ⟨a, ha⟩ := by
            intro e
            rw [e] at hj
            exact hja (Inv.dense_inj ⟨hlen, hs, hd⟩ hj hdA)
          have hib : id ≠ s.dense.get ⟨b, hb⟩ := by
            intro e
            rw [e] at hj
            exact hjb (Inv.dense_inj ⟨hlen, hs, hd⟩ hj hdB)
          rw [Storage.swap_get_other _ hia hib]
          exact h1

theorem inv_swap_by_index {s s' : SparseSet E T} {a b : Nat} (h : Inv s)
    (hs' : s.swap_by_index a b = some s') : Inv s' := by
  unfold swap_by_index at hs'
  split at hs'
  · cases hs'
  · split at hs'
    · cases hs'
    · obtain rfl := Option.some.inj hs'
      exact inv_swap_by_index_unchecked h (by omega) (by omega)

end SparseSet

namespace SparseSet

variable {E T : Type} [DecidableEq E]

theorem inv_pop {s : SparseSet E T} (h : Inv s) {id : E}
    (hlast : s.dense[s.dense.length - 1]? = some id) :
    Inv ⟨s.sparse.set_index id none, s.dense.dropLast, s.data.dropLast⟩ := by
  obtain ⟨hlen, hs, hd⟩ := h
  have hpos : 0 < s.dense.length := by
    rcases (List.getElem?_eq_some_iff.mp hlast) with ⟨hlt, _⟩
    omega
  refine ⟨by simp [hlen], ?_, ?_⟩
  · intro id' k hk
    by_cases hcase : id' = id
    · subst hcase
      rw [Storage.set_index_get_self] at hk
      cases hk
    · rw [Storage.set_index_get_other _ hcase] at hk
      obtain ⟨hk0, hklt, hkd⟩ := hs id' k hk
      have hkne : k - 1 ≠ s.dense.length - 1 := by
        intro e
        apply hcase
        rw [e] at hkd
        exact Option.some.inj (hkd.symm.trans hlast)
      refine ⟨hk0, by simp; omega, ?_⟩
      rw [List.getElem?_dropLast, if_pos (by omega)]
      exact hkd
  · intro j id' hj
    rw [List.getElem?_dropLast] at hj
    by_cases hjlt : j < s.dense.length - 1
    · rw [if_pos hjlt] at hj
      have h1 := hd j id' hj
      have hne : id' ≠ id := by
        intro e
        rw [e] at hj
        have := Inv.dense_inj ⟨hlen, hs, hd⟩ hj hlast
        omega
      rw [Storage.set_index_get_other _ hne]
      exact h1
    · rw [if_neg hjlt] at hj
      cases hj

theorem inv_swap_remove_by_index {s : SparseSet E T} (h : Inv s) (i : Nat) :
    Inv (s.swap_remove_by_index i).1 := by
  unfold swap_remove_by_index
  cases hid : s.get_id i with
  | none => exact h
  | some id =>
    have hilt : i < s.len := (List.getElem?_eq_some_iff.mp hid).1
    have hll : s.len = s.dense.length := rfl
    have hswap : s.swap_by_index i (s.len - 1) =
        some (s.swap_by_index_unchecked i (s.len - 1)) := by
      unfold swap_by_index
      rw [if_neg (by omega), if_neg (by omega)]
    rw [hswap]
    have hinv1 : Inv (s.swap_by_index_unchecked i (s.len - 1)) :=
      inv_swap_by_index_unchecked h hilt (by omega)
    have hlen1 : (s.swap_by_index_unchecked i (s.len - 1)).dense.length =
        s.dense.length := swap_by_index_unchecked_dense_length s i (s.len - 1)
    have hlast : (s.swap_by_index_unchecked i (s.len - 1)).dense[
        (s.swap_by_index_unchecked i (s.len - 1)).dense.length - 1]? = some id := by
      rw [hlen1]
      by_cases hieq : i = s.len - 1
      · subst hieq
        unfold swap_by_index_unchecked
        rw [if_pos rfl]
        exact hid
      · rw [swap_by_index_unchecked_eq hilt (by omega) hieq]
        exact (listSwap_getElem?_snd hilt (by omega)).trans hid
    exact inv_pop hinv1 hlast

theorem inv_swap_remove_by_id {s : SparseSet E T} (h : Inv s) (id : E) :
    Inv (s.swap_remove_by_id id).1 := by
  unfold swap_remove_by_id
  cases hx : s.get_index id with
  | none => exact h
  | some i => exact inv_swap_remove_by_index h i

theorem inv_swap_by_entity_id {s : SparseSet E T} (h : Inv s) (id_a id_b : E) :
    Inv (s.swap_by_entity_id id_a id_b) := by
  unfold swap_by_entity_id
  cases hxa : s.sparse.get_index id_a with
  | none => exact h
  | some ka =>
    cases hxb : s.sparse.get_index id_b with
    | none => exact h
    | some kb =>
      obtain ⟨_, hka, _⟩ := h.2.1 id_a ka hxa
      obtain ⟨_, hkb, _⟩ := h.2.1 id_b kb hxb
      exact inv_swap_by_index_unchecked h hka hkb

end SparseSet

namespace SparseSet

variable {E T : Type} [DecidableEq E]

theorem inv_batch_core (ids : List E) :
    ∀ (s : SparseSet E T) (vals : List T), Inv s → ids.Nodup →
      (∀ id ∈ ids, s.sparse.get_index id = none) →
      ids.length = vals.length →
      Inv ⟨s.sparse.set_indices ids (s.data.length + 1),
           s.dense ++ ids, s.data ++ vals⟩ := by
  induction ids with
  | nil =>
    intro s vals h _ _ hlen
    have hv : vals = [] := List.eq_nil_of_length_eq_zero hlen.symm
    subst hv
    simpa [Storage.set_indices] using h
  | cons id rest ih =>
    intro s vals h hnodup hfresh hlen
    cases vals with
    | nil => simp at hlen
    | cons v vrest =>
      have hid : s.sparse.get_index id = none := hfresh id (by simp)
      have hlen' : s.dense.length = s.data.length := h.1
      have step := ih ⟨s.sparse.set_index id (some (s.data.length + 1)),
                      s.dense ++ [id], s.data ++ [v]⟩ vrest
        (by
          have := inv_insert_fresh h hid v
          rwa [hlen'] at this)
        (List.Nodup.of_cons hnodup)
        (by
          intro id' hid'
          have hne : id' ≠ id := by
            intro e
            subst e
            exact (List.nodup_cons.mp hnodup).1 hid'
          rw [Storage.set_index_get_other _ hne]
          exact hfresh id' (by simp [hid']))
        (by simpa using hlen)
      simp only [List.append_assoc, List.singleton_append] at step
      have harr : (s.data ++ [v]).length + 1 = s.data.length + 1 + 1 := by
        simp
      rw [harr] at step
      exact step

theorem inv_insert_batch {s s' : SparseSet E T} {ids leftIds : List E}
    {vals leftVals : List T} (h : Inv s) (hnodup : ids.Nodup)
    (hfresh : ∀ id ∈ ids, s.contains id = false)
    (hb : s.insert_batch ids vals = some (s', leftIds, leftVals)) : Inv s' := by
  unfold insert_batch at hb
  split at hb
  · cases hb
  · have hlen : ids.length = vals.length := by omega
    have hfresh' : ∀ id ∈ ids, s.sparse.get_index id = none := by
      intro id hid
      have := hfresh id hid
      unfold contains at this
      exact Option.not_isSome_iff_eq_none.mp (by simp [this])
    have := inv_batch_core ids s vals h hnodup hfresh' hlen
    have heq : s' = ⟨s.sparse.set_indices ids (s.data.length + 1),
                     s.dense ++ ids, s.data ++ vals⟩ := by
      have := Option.some.inj hb
      exact (congrArg Prod.fst this).symm
    rw [heq]
    exact this

/-- States reachable from an empty sparse set by the public operations,
with the documented preconditions respected (a batch insert only with
duplicate-free, not-yet-present ids; all other operations at arbitrary
arguments, their misuse being either reported or a checked panic). -/
inductive Reachable : SparseSet E T → Prop where
  | init : Reachable (with_storage Storage.empty)
  | clear {s : SparseSet E T} : Reachable s → Reachable s.clear
  | insert {s : SparseSet E T} (id : E) (v : T) :
      Reachable s → Reachable (s.insert id v).1
  | insert_batch {s s' : SparseSet E T} {ids leftIds : List E}
      {vals leftVals : List T} :
      Reachable s → ids.Nodup → (∀ id ∈ ids, s.contains id = false) →
      s.insert_batch ids vals = some (s', leftIds, leftVals) → Reachable s'
  | swap_remove_by_id {s : SparseSet E T} (id : E) :
      Reachable s → Reachable (s.swap_remove_by_id id).1
  | swap_remove_by_index {s : SparseSet E T} (i : Nat) :
      Reachable s → Reachable (s.swap_remove_by_index i).1
  | swap_by_entity_id {s : SparseSet E T} (id_a id_b : E) :
      Reachable s → Reachable (s.swap_by_entity_id id_a id_b)
  | swap_by_index {s s' : SparseSet E T} {a b : Nat} :
      Reachable s → s.swap_by_index a b = some s' → Reachable s'

/-- Every reachable state satisfies the bijection invariant. -/
theorem inv_of_reachable {s : SparseSet E T} (h : Reachable s) : Inv s := by
  induction h with
  | init => exact inv_with_storage_empty
  | clear _ _ => exact inv_clear _
  | insert id v _ ih => exact inv_insert _ id v ih
  | insert_batch _ hnodup hfresh hb ih => exact inv_insert_batch ih hnodup hfresh hb
  | swap_remove_by_id id _ ih => exact inv_swap_remove_by_id ih id
  | swap_remove_by_index i _ ih => exact inv_swap_remove_by_index ih i
  | swap_by_entity_id id_a id_b _ ih => exact inv_swap_by_entity_id ih id_a id_b
  | swap_by_index _ hs ih => exact inv_swap_by_index ih hs

end SparseSet

namespace SparseSet

variable {E T : Type} [DecidableEq E]

/-! ## Claim theorems -/

/-- The bijection property of §8, phrased through the public accessors. -/
def BijectionSpec (s : SparseSet E T) : Prop :=
  (∀ id, s.contains id = true →
    ∃ k, s.get_index id = some k ∧ s.get_id k = some id ∧ k < s.len ∧
      s.get id = s.data[k]? ∧ (s.data[k]?).isSome = true) ∧
  (∀ j, j < s.len → ∃ id, s.get_id j = some id ∧ s.get_index id = some j) ∧
  s.len = s.dense.length ∧ s.len = s.data.length

/-- **C1**: in every state reachable from an empty `SparseSet` by the public
operations (documented preconditions respected), every contained id's
`get_index` yields a dense position `k` with `get_id k` equal to the id and
`get` equal to the value at dense position `k`; conversely every dense
position `j < len()` round-trips through `get_index ∘ get_id`; and `len()`
equals the length of both dense sequences. -/
theorem claim_C1 {E T : Type} [DecidableEq E] {s : SparseSet E T}
    (h : Reachable s) : BijectionSpec s := by
  obtain ⟨hlen, hs, hd⟩ := inv_of_reachable h
  refine ⟨?_, ?_, rfl, hlen⟩
  · intro id hc
    unfold contains at hc
    obtain ⟨k', hk'⟩ := Option.isSome_iff_exists.mp hc
    obtain ⟨hk0, hklt, hkd⟩ := hs id k' hk'
    refine ⟨k' - 1, ?_, hkd, hklt, ?_, ?_⟩
    · unfold get_index
      rw [hk']
      rfl
    · unfold get
      rw [hk']
    · have hdata : k' - 1 < s.data.length := by omega
      rw [List.getElem?_eq_getElem hdata]
      rfl
  · intro j hj
    have hjd : s.dense[j]? = some (s.dense.get ⟨j, hj⟩) :=
      List.getElem?_eq_getElem hj
    refine ⟨s.dense.get ⟨j, hj⟩, hjd, ?_⟩
    unfold get_index
    rw [hd j _ hjd]
    simp

/-- A small concrete state used by the witnesses: insert ids 1, 2, 3 with
values 10, 20, 30 into an empty set. -/
def sampleSet : SparseSet Nat Nat :=
  ((((with_storage Storage.empty).insert 1 10).1.insert 2 20).1.insert 3 30).1

theorem sampleReachable : Reachable sampleSet :=
  .insert 3 30 (.insert 2 20 (.insert 1 10 .init))

theorem claim_C1_witness :
    Reachable (sampleSet) ∧ BijectionSpec (sampleSet) :=
  ⟨sampleReachable, claim_C1 sampleReachable⟩

end SparseSet

namespace SparseSet

variable {E T : Type} [DecidableEq E]

/-- What C3 asserts of a fresh insert: `None` returned, both dense sequences
appended (the new pair at old `len()`), slot index old `len() + 1` recorded,
and the id contained with its value retrievable afterwards. -/
def InsertFreshSpec (s : SparseSet E T) (id : E) (v : T) : Prop :=
  (s.insert id v).2 = none ∧
  (s.insert id v).1.dense = s.dense ++ [id] ∧
  (s.insert id v).1.data = s.data ++ [v] ∧
  (s.insert id v).1.len = s.len + 1 ∧
  (s.insert id v).1.get_id s.len = some id ∧
  (s.insert id v).1.data[s.len]? = some v ∧
  (s.insert id v).1.sparse.get_index id = some (s.len + 1) ∧
  (s.insert id v).1.get_index id = some s.len ∧
  (s.insert id v).1.contains id = true ∧
  (s.insert id v).1.get id = some v

/-- **C3**: `insert(id, value)` on an id that is not present returns `None`,
appends `id` and `value` to the two dense sequences (the new pair at dense
position old `len()`), records slot index old `len() + 1` in the backend,
and afterwards `contains(id)` holds and `get(id)` is the value. -/
theorem claim_C3 {E T : Type} [DecidableEq E] {s : SparseSet E T}
    (h : Inv s) {id : E} (hid : s.contains id = false) (v : T) :
    InsertFreshSpec s id v := by
  have hnone : s.sparse.get_index id = none := by
    unfold contains at hid
    exact Option.not_isSome_iff_eq_none.mp (by simp [hid])
  have hdl : s.len = s.data.length := h.1
  have hins : s.insert id v =
      (⟨s.sparse.set_index id (some (s.dense.length + 1)),
        s.dense ++ [id], s.data ++ [v]⟩, none) := by
    simp only [insert, hnone, nonZeroUsizeNew_succ]
  unfold InsertFreshSpec
  rw [hins]
  refine ⟨rfl, rfl, rfl, by simp [len], List.getElem?_concat_length _ _, ?_,
    Storage.set_index_get_self _ _ _, ?_, ?_, ?_⟩
  · rw [hdl]
    exact List.getElem?_concat_length _ _
  · unfold get_index
    rw [Storage.set_index_get_self]
    rfl
  · unfold contains
    rw [Storage.set_index_get_self]
    rfl
  · unfold get
    rw [Storage.set_index_get_self]
    show (s.data ++ [v])[s.dense.length + 1 - 1]? = some v
    rw [show s.dense.length + 1 - 1 = s.dense.length from rfl, h.1]
    exact List.getElem?_concat_length _ _

theorem claim_C3_witness :
    Inv sampleSet ∧ sampleSet.contains 5 = false ∧
    InsertFreshSpec sampleSet 5 50 :=
  ⟨inv_of_reachable sampleReachable, by decide,
   claim_C3 (inv_of_reachable sampleReachable)
     (by decide : sampleSet.contains 5 = false) 50⟩

end SparseSet

namespace SparseSet

variable {E T : Type} [DecidableEq E]

/-- What C4 asserts of inserting an already-present id: the previous value
is returned, the value is replaced in place, and nothing else changes. -/
def InsertReplaceSpec (s : SparseSet E T) (id : E) (v : T) : Prop :=
  (s.insert id v).2 = s.get id ∧
  ((s.insert id v).2).isSome = true ∧
  (s.insert id v).1.get id = some v ∧
  (s.insert id v).1.get_index id = s.get_index id ∧
  (s.insert id v).1.len = s.len ∧
  (s.insert id v).1.dense = s.dense ∧
  (s.insert id v).1.sparse = s.sparse ∧
  (s.insert id v).1.data.length = s.data.length ∧
  (∀ x, x ≠ id → (s.insert id v).1.get_index x = s.get_index x ∧
    (s.insert id v).1.get x = s.get x)

/-- **C4**: `insert(id, value)` on a present id returns `Some` of the
previous value, replaces the value in place, and changes nothing else:
`get_index(id)`, `len()`, the dense identifier sequence, the backend, and
every other id's position and value are unchanged. -/
theorem claim_C4 {E T : Type} [DecidableEq E] {s : SparseSet E T}
    (h : Inv s) {id : E} (hid : s.contains id = true) (v : T) :
    InsertReplaceSpec s id v := by
  unfold contains at hid
  obtain ⟨k', hk'⟩ := Option.isSome_iff_exists.mp hid
  obtain ⟨hk0, hklt, hkd⟩ := h.2.1 id k' hk'
  have hdlt : k' - 1 < s.data.length := by
    have := h.1
    omega
  have hget : s.get id = s.data[k' - 1]? := by
    unfold get
    rw [hk']
  have hins : s.insert id v =
      (⟨s.sparse, s.dense, s.data.set (k' - 1) v⟩, s.data[k' - 1]?) := by
    simp only [insert, hk']
  unfold InsertReplaceSpec
  rw [hins, hget]
  refine ⟨rfl, ?_, ?_, rfl, rfl, rfl, rfl, by simp, ?_⟩
  · rw [List.getElem?_eq_getElem hdlt]
    rfl
  · unfold get
    rw [hk']
    show (s.data.set (k' - 1) v)[k' - 1]? = some v
    exact List.getElem?_set_self hdlt
  · intro x hx
    refine ⟨rfl, ?_⟩
    unfold get
    cases hm : s.sparse.get_index x with
    | none => rfl
    | some m =>
      obtain ⟨hm0, hmlt, hmd⟩ := h.2.1 x m hm
      have hne : k' - 1 ≠ m - 1 := by
        intro e
        apply hx
        rw [← e] at hmd
        exact Option.some.inj (hmd.symm.trans hkd)
      show (s.data.set (k' - 1) v)[m - 1]? = s.data[m - 1]?
      exact List.getElem?_set_ne hne

theorem claim_C4_witness :
    Inv sampleSet ∧ sampleSet.contains 2 = true ∧
    InsertReplaceSpec sampleSet 2 99 :=
  ⟨inv_of_reachable sampleReachable, by decide,
   claim_C4 (inv_of_reachable sampleReachable)
     (by decide : sampleSet.contains 2 = true) 99⟩

end SparseSet

namespace SparseSet

variable {E T : Type} [DecidableEq E]

/-- **C6**: `swap_remove_by_id(id)` returns `None` and leaves the set
unchanged when `id` is not present; when `id` is present it coincides, in
returned value and resulting state, with `swap_remove_by_index` at the
position `get_index(id)` computes. -/
theorem claim_C6 {E T : Type} [DecidableEq E] (s : SparseSet E T) (id : E) :
    (s.contains id = false → s.swap_remove_by_id id = (s, none)) ∧
    (∀ k, s.get_index id = some k →
      s.swap_remove_by_id id = s.swap_remove_by_index k) := by
  constructor
  · intro hc
    have hnone : s.sparse.get_index id = none := by
      unfold contains at hc
      exact Option.not_isSome_iff_eq_none.mp (by simp [hc])
    have hgi : s.get_index id = none := by
      unfold get_index
      rw [hnone]
      rfl
    unfold swap_remove_by_id
    rw [hgi]
  · intro k hk
    unfold swap_remove_by_id
    rw [hk]

theorem claim_C6_witness :
    (sampleSet.contains 7 = false ∧ sampleSet.swap_remove_by_id 7 = (sampleSet, none)) ∧
    (sampleSet.get_index 2 = some 1 ∧
      sampleSet.swap_remove_by_id 2 = sampleSet.swap_remove_by_index 1) :=
  ⟨⟨by decide, (claim_C6 sampleSet 7).1 (by decide)⟩,
   ⟨by decide, (claim_C6 sampleSet 2).2 1 (by decide)⟩⟩

/-- **C10**: a batch insert that returns normally (equal lengths) has moved
the elements out of both caller-supplied vectors, leaving them empty, while
the set's dense sequences received them wholesale. -/
theorem claim_C10 {E T : Type} [DecidableEq E] {s s' : SparseSet E T}
    {ids leftIds : List E} {vals leftVals : List T}
    (h : s.insert_batch ids vals = some (s', leftIds, leftVals)) :
    leftIds = [] ∧ leftVals = [] ∧
    s'.dense = s.dense ++ ids ∧ s'.data = s.data ++ vals := by
  unfold insert_batch at h
  split at h
  · cases h
  · have h' := Option.some.inj h
    refine ⟨?_, ?_, ?_, ?_⟩
    · have := congrArg (fun p => p.2.1) h'
      exact this.symm
    · have := congrArg (fun p => p.2.2) h'
      exact this.symm
    · have := congrArg (fun p => p.1.dense) h'
      exact this.symm
    · have := congrArg (fun p => p.1.data) h'
      exact this.symm

theorem claim_C10_witness :
    sampleSet.insert_batch [4, 5] [40, 50] =
      some (⟨sampleSet.sparse.set_indices [4, 5] (sampleSet.data.length + 1),
             sampleSet.dense ++ [4, 5], sampleSet.data ++ [40, 50]⟩, [], []) ∧
    ([] : List Nat) = [] ∧ ([] : List Nat) = [] ∧
    sampleSet.dense ++ [4, 5] = sampleSet.dense ++ [4, 5] ∧
    sampleSet.data ++ [40, 50] = sampleSet.data ++ [40, 50] := by
  have hb : sampleSet.insert_batch [4, 5] [40, 50] =
      some (⟨sampleSet.sparse.set_indices [4, 5] (sampleSet.data.length + 1),
             sampleSet.dense ++ [4, 5], sampleSet.data ++ [40, 50]⟩, [], []) := by
    rfl
  have h := claim_C10 hb
  exact ⟨hb, h.1, h.2.1, h.2.2.1.symm ▸ rfl, h.2.2.2.symm ▸ rfl⟩

end SparseSet

namespace Storage

variable {E : Type} [DecidableEq E]

theorem set_indices_get_not_mem (f : Storage E) {ids : List E} {id : E}
    (h : id ∉ ids) (start : Nat) :
    (f.set_indices ids start).get_index id = f.get_index id := by
  induction ids generalizing f start with
  | nil => rfl
  | cons a rest ih =>
    have hne : id ≠ a := by
      intro e
      exact h (by simp [e])
    have htail : id ∉ rest := fun hmem => h (by simp [hmem])
    show ((f.set_index a (some start)).set_indices rest (start + 1)).get_index id =
      f.get_index id
    rw [ih _ htail]
    exact set_index_get_other _ hne

theorem set_indices_get_nth (f : Storage E) {ids : List E} (hnodup : ids.Nodup)
    {i : Nat} (hi : i < ids.length) (start : Nat) :
    (f.set_indices ids start).get_index (ids.get ⟨i, hi⟩) = some (start + i) := by
  induction ids generalizing f start i with
  | nil => cases hi
  | cons a rest ih =>
    cases i with
    | zero =>
      show ((f.set_index a (some start)).set_indices rest (start + 1)).get_index a =
        some (start + 0)
      rw [set_indices_get_not_mem _ (List.nodup_cons.mp hnodup).1,
        set_index_get_self]
      rfl
    | succ i' =>
      have hi' : i' < rest.length := by
        simpa using hi
      show ((f.set_index a (some start)).set_indices rest (start + 1)).get_index
        (rest.get ⟨i', hi'⟩) = some (start + (i' + 1))
      rw [ih _ (List.Nodup.of_cons hnodup) hi' (start + 1)]
      congr 1
      omega

end Storage

namespace SparseSet

variable {E T : Type} [DecidableEq E]

/-- What C5 asserts of a batch insert with equal lengths: the appended state
is returned, both dense sequences receive the batch wholesale, the backend
is updated by one `set_indices` batch call, and (under the documented
precondition) the appended ids receive consecutive slot indices starting at
the 1-based old `len() + 1`. -/
def InsertBatchSpec (s : SparseSet E T) (ids : List E) (vals : List T) : Prop :=
  ∃ s', s.insert_batch ids vals = some (s', [], []) ∧
    s'.dense = s.dense ++ ids ∧ s'.data = s.data ++ vals ∧
    s'.sparse = s.sparse.set_indices ids (s.data.length + 1) ∧
    (ids.Nodup → (∀ id ∈ ids, s.contains id = false) → Inv s →
      ∀ i, ∀ hi : i < ids.length,
        s'.sparse.get_index (ids.get ⟨i, hi⟩) = some (s.len + 1 + i))

/-- **C5**: `insert_batch(ids, values)` panics exactly when the two input
lengths differ (the panic fires before any mutation, so the set is
untouched); with equal lengths it appends both sequences wholesale and, in a
single backend batch call, registers consecutive slot indices for the
appended ids starting at the 1-based old `len() + 1`. -/
theorem claim_C5 {E T : Type} [DecidableEq E] (s : SparseSet E T)
    (ids : List E) (vals : List T) :
    (s.insert_batch ids vals = none ↔ ids.length ≠ vals.length) ∧
    (ids.length = vals.length → InsertBatchSpec s ids vals) := by
  constructor
  · unfold insert_batch
    split
    · simpa
    · constructor
      · intro h
        cases h
      · intro h
        omega
  · intro hlen
    refine ⟨⟨s.sparse.set_indices ids (s.data.length + 1),
      s.dense ++ ids, s.data ++ vals⟩, ?_, rfl, rfl, rfl, ?_⟩
    · unfold insert_batch
      rw [if_neg (by omega)]
    · intro hnodup _ hinv i hi
      have := Storage.set_indices_get_nth s.sparse hnodup hi (s.data.length + 1)
      rw [this]
      congr 1
      have : s.len = s.data.length := hinv.1
      omega

theorem claim_C5_witness :
    (sampleSet.insert_batch [4] [40, 50] = none ∧
      ([4].length ≠ [40, 50].length)) ∧
    ([4, 5].length = ([40, 50] : List Nat).length ∧
      InsertBatchSpec sampleSet [4, 5] [40, 50]) :=
  ⟨⟨(claim_C5 sampleSet [4] [40, 50]).1.mpr (by decide), by decide⟩,
   ⟨by decide, (claim_C5 sampleSet [4, 5] [40, 50]).2 (by decide)⟩⟩

end SparseSet

namespace SparseSet

variable {E T : Type} [DecidableEq E]

/-- What C8 asserts of an in-range checked swap: no panic, `a = b` is a
no-op, and the two dense positions are exchanged in the identifier sequence,
the value sequence, and the backend, all other positions untouched. -/
def SwapByIndexSpec (s : SparseSet E T) (a b : Nat) : Prop :=
  s.swap_by_index a b = some (s.swap_by_index_unchecked a b) ∧
  (a = b → s.swap_by_index a b = some s) ∧
  ∀ s', s.swap_by_index a b = some s' →
    s'.get_id a = s.get_id b ∧ s'.get_id b = s.get_id a ∧
    s'.data[a]? = s.data[b]? ∧ s'.data[b]? = s.data[a]? ∧
    (∀ c, c ≠ a → c ≠ b → s'.get_id c = s.get_id c ∧ s'.data[c]? = s.data[c]?) ∧
    (∀ x, s.get_id a = some x → s'.get_index x = some b) ∧
    (∀ x, s.get_id b = some x → s'.get_index x = some a)

/-- **C8**: `swap_by_index(a, b)` panics exactly when `a ≥ len()` or
`b ≥ len()`; with both indices in range it exchanges the elements at dense
positions `a` and `b` in both dense sequences and in the backend, `a = b`
in range being a no-op. -/
theorem claim_C8 {E T : Type} [DecidableEq E] {s : SparseSet E T}
    (h : Inv s) (a b : Nat) :
    (s.swap_by_index a b = none ↔ a ≥ s.len ∨ b ≥ s.len) ∧
    (a < s.len → b < s.len → SwapByIndexSpec s a b) := by
  constructor
  · unfold swap_by_index
    split
    · simp
      omega
    · split
      · simp
        omega
      · simp
        omega
  · intro ha hb
    have hsome : s.swap_by_index a b = some (s.swap_by_index_unchecked a b) := by
      unfold swap_by_index
      rw [if_neg (by omega), if_neg (by omega)]
    refine ⟨hsome, ?_, ?_⟩
    · intro hab
      subst hab
      rw [hsome]
      unfold swap_by_index_unchecked
      rw [if_pos rfl]
    · intro s' hs'
      rw [hsome] at hs'
      obtain rfl := (Option.some.inj hs').symm
      by_cases hab : a = b
      · subst hab
        have hnoop : s.swap_by_index_unchecked a a = s := by
          unfold swap_by_index_unchecked
          rw [if_pos rfl]
        rw [hnoop]
        refine ⟨rfl, rfl, rfl, rfl, fun c _ _ => ⟨rfl, rfl⟩, ?_, ?_⟩ <;>
        · intro x hx
          have := h.2.2 a x hx
          unfold get_index
          rw [this]
          simp
      · have ha' : a < s.dense.length := ha
        have hb' : b < s.dense.length := hb
        have hda : b < s.data.length := by
          have := h.1
          omega
        have hdb : a < s.data.length := by
          have := h.1
          omega
        rw [swap_by_index_unchecked_eq ha hb hab]
        refine ⟨listSwap_getElem?_fst ha' hb', listSwap_getElem?_snd ha' hb',
          listSwap_getElem?_fst hdb hda, listSwap_getElem?_snd hdb hda,
          ?_, ?_, ?_⟩
        · intro c hca hcb
          exact ⟨listSwap_getElem?_other hca hcb, listSwap_getElem?_other hca hcb⟩
        · intro x hx
          have hxa : x = s.dense.get ⟨a, ha⟩ := by
            have : s.dense[a]? = some (s.dense.get ⟨a, ha⟩) :=
              List.getElem?_eq_getElem ha'
            exact Option.some.inj ((hx.symm.trans this))
          subst hxa
          unfold get_index
          rw [Storage.swap_get_fst]
          have hsb : s.sparse.get_index (s.dense.get ⟨b, hb⟩) = some (b + 1) :=
            h.2.2 b _ (List.getElem?_eq_getElem hb')
          rw [hsb]
          simp
        · intro x hx
          have hxb : x = s.dense.get ⟨b, hb⟩ := by
            have : s.dense[b]? = some (s.dense.get ⟨b, hb⟩) :=
              List.getElem?_eq_getElem hb'
            exact Option.some.inj ((hx.symm.trans this))
          subst hxb
          unfold get_index
          rw [Storage.swap_get_snd]
          have hsa : s.sparse.get_index (s.dense.get ⟨a, ha⟩) = some (a + 1) :=
            h.2.2 a _ (List.getElem?_eq_getElem ha')
          rw [hsa]
          simp

theorem claim_C8_witness :
    Inv sampleSet ∧ 0 < sampleSet.len ∧ 2 < sampleSet.len ∧
    SwapByIndexSpec sampleSet 0 2 :=
  ⟨inv_of_reachable sampleReachable, by decide, by decide,
   (claim_C8 (inv_of_reachable sampleReachable) 0 2).2 (by decide) (by decide)⟩

end SparseSet

namespace SparseSet

variable {E T : Type} [DecidableEq E]

/-- What C7 asserts when both ids are present: their dense positions are
exchanged in the identifier sequence, the value sequence and the backend,
each id keeps its own value, and every other id is untouched. -/
def SwapByEntityIdSpec (s : SparseSet E T) (id_a id_b : E) : Prop :=
  ∀ ka kb, s.get_index id_a = some ka → s.get_index id_b = some kb →
    (s.swap_by_entity_id id_a id_b).get_index id_a = some kb ∧
    (s.swap_by_entity_id id_a id_b).get_index id_b = some ka ∧
    (s.swap_by_entity_id id_a id_b).get id_a = s.get id_a ∧
    (s.swap_by_entity_id id_a id_b).get id_b = s.get id_b ∧
    (s.swap_by_entity_id id_a id_b).get_id kb = some id_a ∧
    (s.swap_by_entity_id id_a id_b).get_id ka = some id_b ∧
    (∀ x, x ≠ id_a → x ≠ id_b →
      (s.swap_by_entity_id id_a id_b).get_index x = s.get_index x ∧
      (s.swap_by_entity_id id_a id_b).get x = s.get x)

/-- **C7**: `swap_by_entity_id(id_a, id_b)` leaves the set completely
unchanged if either id is absent (in particular when `id_a = id_b` nothing
changes); when both are present it exchanges their dense positions in the
identifier sequence, the value sequence and the backend, each id keeping its
own value and all other ids unaffected. -/
theorem claim_C7 {E T : Type} [DecidableEq E] {s : SparseSet E T}
    (h : Inv s) (id_a id_b : E) :
    (s.contains id_a = false ∨ s.contains id_b = false →
      s.swap_by_entity_id id_a id_b = s) ∧
    (id_a = id_b → s.swap_by_entity_id id_a id_b = s) ∧
    SwapByEntityIdSpec s id_a id_b := by
  refine ⟨?_, ?_, ?_⟩
  · intro hc
    unfold swap_by_entity_id
    cases hxa : s.sparse.get_index id_a with
    | none => rfl
    | some ka' =>
      cases hxb : s.sparse.get_index id_b with
      | none => rfl
      | some kb' =>
        exfalso
        unfold contains at hc
        rcases hc with hc | hc
        · rw [hxa] at hc
          cases hc
        · rw [hxb] at hc
          cases hc
  · intro hab
    subst hab
    unfold swap_by_entity_id
    cases hxa : s.sparse.get_index id_a with
    | none => rfl
    | some ka' =>
      have hnoop : s.swap_by_index_unchecked (ka' - 1) (ka' - 1) = s := by
        unfold swap_by_index_unchecked
        rw [if_pos rfl]
      exact hnoop
  · intro ka kb hka hkb
    unfold get_index at hka hkb
    cases hxa : s.sparse.get_index id_a with
    | none =>
      rw [hxa] at hka
      cases hka
    | some ka' =>
      rw [hxa] at hka
      cases hxb : s.sparse.get_index id_b with
      | none =>
        rw [hxb] at hkb
        cases hkb
      | some kb' =>
        rw [hxb] at hkb
        have hka1 : ka = ka' - 1 := (Option.some.inj hka).symm
        have hkb1 : kb = kb' - 1 := (Option.some.inj hkb).symm
        subst hka1
        subst hkb1
        obtain ⟨hka0, hkalt, hkad⟩ := h.2.1 id_a ka' hxa
        obtain ⟨hkb0, hkblt, hkbd⟩ := h.2.1 id_b kb' hxb
        have hswap : s.swap_by_entity_id id_a id_b =
            s.swap_by_index_unchecked (ka' - 1) (kb' - 1) := by
          unfold swap_by_entity_id
          rw [hxa, hxb]
        by_cases hab : id_a = id_b
        · subst hab
          have hk : ka' = kb' := Option.some.inj (hxa.symm.trans hxb)
          subst hk
          have hnoop : s.swap_by_index_unchecked (ka' - 1) (ka' - 1) = s := by
            unfold swap_by_index_unchecked
            rw [if_pos rfl]
          rw [hswap, hnoop]
          refine ⟨?_, ?_, rfl, rfl, hkad, hkad, fun x _ _ => ⟨rfl, rfl⟩⟩
          · unfold get_index
            rw [hxa]
            rfl
          · unfold get_index
            rw [hxa]
            rfl
        · have hkne : ka' - 1 ≠ kb' - 1 := by
            intro e
            apply hab
            rw [e] at hkad
            exact Option.some.inj (hkad.symm.trans hkbd)
          have hga : s.dense.get ⟨ka' - 1, hkalt⟩ = id_a :=
            Option.some.inj ((List.getElem?_eq_getElem hkalt).symm.trans hkad)
          have hgb : s.dense.get ⟨kb' - 1, hkblt⟩ = id_b :=
            Option.some.inj ((List.getElem?_eq_getElem hkblt).symm.trans hkbd)
          have hueq := swap_by_index_unchecked_eq (s := s) hkalt hkblt hkne
          rw [hga, hgb] at hueq
          rw [hswap, hueq]
          have hdalt : ka' - 1 < s.data.length := by
            have := h.1
            omega
          have hdblt : kb' - 1 < s.data.length := by
            have := h.1
            omega
          refine ⟨?_, ?_, ?_, ?_, ?_, ?_, ?_⟩
          · unfold get_index
            rw [Storage.swap_get_fst, hxb]
            rfl
          · unfold get_index
            rw [Storage.swap_get_snd, hxa]
            rfl
          · unfold get
            rw [Storage.swap_get_fst, hxb, hxa]
            exact listSwap_getElem?_snd hdalt hdblt
          · unfold get
            rw [Storage.swap_get_snd, hxb, hxa]
            exact listSwap_getElem?_fst hdalt hdblt
          · show (listSwap s.dense (ka' - 1) (kb' - 1))[kb' - 1]? = some id_a
            rw [listSwap_getElem?_snd hkalt hkblt]
            exact hkad
          · show (listSwap s.dense (ka' - 1) (kb' - 1))[ka' - 1]? = some id_b
            rw [listSwap_getElem?_fst hkalt hkblt]
            exact hkbd
          · intro x hxna hxnb
            constructor
            · unfold get_index
              rw [Storage.swap_get_other _ hxna hxnb]
            · unfold get
              rw [Storage.swap_get_other _ hxna hxnb]
              cases hm : s.sparse.get_index x with
              | none => rfl
              | some m =>
                obtain ⟨hm0, hmlt, hmd⟩ := h.2.1 x m hm
                have hmne1 : m - 1 ≠ ka' - 1 := by
                  intro e
                  apply hxna
                  rw [e] at hmd
                  exact Option.some.inj (hmd.symm.trans hkad)
                have hmne2 : m - 1 ≠ kb' - 1 := by
                  intro e
                  apply hxnb
                  rw [e] at hmd
                  exact Option.some.inj (hmd.symm.trans hkbd)
                exact listSwap_getElem?_other hmne1 hmne2

theorem claim_C7_witness :
    Inv sampleSet ∧
    sampleSet.swap_by_entity_id 1 9 = sampleSet ∧
    sampleSet.swap_by_entity_id 2 2 = sampleSet ∧
    SwapByEntityIdSpec sampleSet 1 3 := by
  have h13 := claim_C7 (inv_of_reachable sampleReachable) 1 3
  have h19 := claim_C7 (inv_of_reachable sampleReachable) 1 9
  have h22 := claim_C7 (inv_of_reachable sampleReachable) 2 2
  exact ⟨inv_of_reachable sampleReachable,
    h19.1 (Or.inr (by decide)), h22.2.1 rfl, h13.2.2⟩

end SparseSet

namespace SparseSet

variable {E T : Type} [DecidableEq E]

theorem swap_remove_by_index_eq {s : SparseSet E T} {index : Nat}
    (hlt : index < s.len) :
    s.swap_remove_by_index index =
      ((⟨(s.swap_by_index_unchecked index (s.len - 1)).sparse.set_index
          (s.dense.get ⟨index, hlt⟩) none,
        (s.swap_by_index_unchecked index (s.len - 1)).dense.dropLast,
        (s.swap_by_index_unchecked index (s.len - 1)).data.dropLast⟩ :
        SparseSet E T),
       (s.swap_by_index_unchecked index (s.len - 1)).data.getLast?) := by
  have hid : s.get_id index = some (s.dense.get ⟨index, hlt⟩) :=
    List.getElem?_eq_getElem hlt
  have hswap : s.swap_by_index index (s.len - 1) =
      some (s.swap_by_index_unchecked index (s.len - 1)) := by
    unfold swap_by_index
    rw [if_neg (by omega), if_neg (by omega)]
  unfold swap_remove_by_index
  rw [hid, hswap]

/-- What C2 asserts of an in-range swap-remove: the detached value (the one
at dense position `index`) is returned, both dense sequences shrink by one,
the removed id is no longer resolved by the backend, the id formerly last
now resolves to `index` (when `index` was not last), and removing the last
element is truncation with no swap. -/
def SwapRemoveSpec (s : SparseSet E T) (index : Nat) : Prop :=
  (s.swap_remove_by_index index).2 = s.data[index]? ∧
  ((s.swap_remove_by_index index).2).isSome = true ∧
  (s.swap_remove_by_index index).1.len = s.len - 1 ∧
  (s.swap_remove_by_index index).1.dense.length = s.dense.length - 1 ∧
  (s.swap_remove_by_index index).1.data.length = s.data.length - 1 ∧
  (∀ id, s.get_id index = some id →
    (s.swap_remove_by_index index).1.contains id = false) ∧
  (index < s.len - 1 → ∀ idL, s.get_id (s.len - 1) = some idL →
    (s.swap_remove_by_index index).1.get_index idL = some index ∧
    (s.swap_remove_by_index index).1.get_id index = some idL) ∧
  (index = s.len - 1 →
    (s.swap_remove_by_index index).1.dense = s.dense.dropLast ∧
    (s.swap_remove_by_index index).1.data = s.data.dropLast)

/-- **C2**: `swap_remove_by_index(index)` returns `None` and leaves the set
unchanged when `index ≥ len()`; otherwise it swaps position `index` with
position `len() - 1` in both dense sequences and the backend, marks the
removed id absent, truncates both sequences by one, and returns the detached
value; the id formerly last then resolves to `index`, `len()` drops by one,
and removing the last element is truncation without a swap. -/
theorem claim_C2 {E T : Type} [DecidableEq E] {s : SparseSet E T}
    (h : Inv s) (index : Nat) :
    (index ≥ s.len → s.swap_remove_by_index index = (s, none)) ∧
    (index < s.len → SwapRemoveSpec s index) := by
  constructor
  · intro hge
    have hnone : s.get_id index = none := List.getElem?_eq_none hge
    unfold swap_remove_by_index
    rw [hnone]
  · intro hlt
    have hll : s.len = s.dense.length := rfl
    have hdl : s.dense.length = s.data.length := h.1
    have hid : s.dense[index]? = some (s.dense.get ⟨index, hlt⟩) :=
      List.getElem?_eq_getElem hlt
    have heq := swap_remove_by_index_eq (s := s) hlt
    unfold SwapRemoveSpec
    rw [heq]
    by_cases hieq : index = s.len - 1
    · have hnoop : s.swap_by_index_unchecked index (s.len - 1) = s := by
        rw [hieq]
        unfold swap_by_index_unchecked
        rw [if_pos rfl]
      rw [hnoop]
      dsimp only
      refine ⟨?_, ?_, ?_, by simp, by simp, ?_, ?_, fun _ => ⟨rfl, rfl⟩⟩
      · rw [List.getLast?_eq_getElem?]
        congr 1
        omega
      · rw [List.getLast?_eq_getElem?, List.getElem?_eq_getElem (by omega)]
        rfl
      · show s.dense.dropLast.length = s.len - 1
        rw [List.length_dropLast]
        omega
      · intro id' hid'
        have he : id' = s.dense.get ⟨index, hlt⟩ :=
          Option.some.inj (hid'.symm.trans hid)
        subst he
        unfold contains
        rw [Storage.set_index_get_self]
        rfl
      · intro hx
        omega
    · have hbl : s.len - 1 < s.len := by omega
      have hueq := swap_by_index_unchecked_eq (s := s) hlt hbl hieq
      rw [hueq]
      dsimp only
      have hidLd : s.dense[s.len - 1]? = some (s.dense.get ⟨s.len - 1, hbl⟩) :=
        List.getElem?_eq_getElem hbl
      have hne : s.dense.get ⟨index, hlt⟩ ≠ s.dense.get ⟨s.len - 1, hbl⟩ := by
        intro e
        apply hieq
        exact h.dense_inj (e ▸ hid) hidLd
      have hia : index < s.data.length := by omega
      have hib : s.len - 1 < s.data.length := by omega
      refine ⟨?_, ?_, ?_, ?_, ?_, ?_, ?_, ?_⟩
      · rw [List.getLast?_eq_getElem?, listSwap_length,
          (by omega : s.data.length - 1 = s.len - 1)]
        exact listSwap_getElem?_snd hia hib
      · rw [List.getLast?_eq_getElem?, listSwap_length,
          (by omega : s.data.length - 1 = s.len - 1),
          listSwap_getElem?_snd hia hib, List.getElem?_eq_getElem hia]
        rfl
      · show (listSwap s.dense index (s.len - 1)).dropLast.length = s.len - 1
        rw [List.length_dropLast, listSwap_length]
        omega
      · show (listSwap s.dense index (s.len - 1)).dropLast.length =
          s.dense.length - 1
        rw [List.length_dropLast, listSwap_length]
      · show (listSwap s.data index (s.len - 1)).dropLast.length =
          s.data.length - 1
        rw [List.length_dropLast, listSwap_length]
      · intro id' hid'
        have he : id' = s.dense.get ⟨index, hlt⟩ :=
          Option.some.inj (hid'.symm.trans hid)
        subst he
        unfold contains
        rw [Storage.set_index_get_self]
        rfl
      · intro hx idL hidL
        have he : idL = s.dense.get ⟨s.len - 1, hbl⟩ :=
          Option.some.inj (hidL.symm.trans hidLd)
        subst he
        constructor
        · unfold get_index
          rw [Storage.set_index_get_other _ (Ne.symm hne),
            Storage.swap_get_snd, h.2.2 index _ hid]
          rfl
        · show (listSwap s.dense index (s.len - 1)).dropLast[index]? =
            some (s.dense.get ⟨s.len - 1, hbl⟩)
          rw [List.getElem?_dropLast, listSwap_length,
            if_pos (by omega : index < s.dense.length - 1),
            listSwap_getElem?_fst hlt hbl]
          exact hidLd
      · intro e
        exact absurd e hieq

theorem claim_C2_witness :
    Inv sampleSet ∧ 0 < sampleSet.len ∧ SwapRemoveSpec sampleSet 0 ∧
    3 ≥ sampleSet.len ∧ sampleSet.swap_remove_by_index 3 = (sampleSet, none) := by
  have h0 := claim_C2 (inv_of_reachable sampleReachable) 0
  have h3 := claim_C2 (inv_of_reachable sampleReachable) 3
  exact ⟨inv_of_reachable sampleReachable, by decide, h0.2 (by decide),
    by decide, h3.1 (by decide)⟩

/-- What C9 asserts of a reachable state: every slot index the backend
reports is positive and translates (minus one) to an in-range position of
both dense sequences — so the unchecked reads in `insert`, `get` and
`get_mut` succeed, and `swap_by_entity_id`'s two indices are in range —
every `get_id`-validated index is below `len()` (so the positions
`swap_remove_by_index` hands to the checked swap are in range), and the
start index `insert_batch` feeds to `NonZeroUsize::new_unchecked` is never
zero. -/
def UncheckedSafety (s : SparseSet E T) : Prop :=
  (∀ id k, s.sparse.get_index id = some k →
    0 < k ∧ k - 1 < s.data.length ∧ k - 1 < s.len ∧
    (s.data[k - 1]?).isSome = true ∧ (s.dense[k - 1]?).isSome = true) ∧
  (∀ index, (s.get_id index).isSome = true →
    index < s.len ∧ s.len - 1 < s.len) ∧
  s.data.length + 1 ≠ 0

/-- **C9**: in every reachable state the indices used by the unchecked
(`unsafe`) operations are in range: the backend-derived index of
`insert`/`get`/`get_mut` is below the dense lengths whenever the id is
present, the index pairs the internal callers pass to
`swap_by_index_unchecked` are below `len()`, and
`NonZeroUsize::new_unchecked(data.len() + 1)` never receives zero. -/
theorem claim_C9 {E T : Type} [DecidableEq E] {s : SparseSet E T}
    (h : Reachable s) : UncheckedSafety s := by
  obtain ⟨hlen, hs, hd⟩ := inv_of_reachable h
  refine ⟨?_, ?_, by omega⟩
  · intro id k hk
    obtain ⟨hk0, hklt, hkd⟩ := hs id k hk
    have hdata : k - 1 < s.data.length := by omega
    refine ⟨hk0, hdata, hklt, ?_, ?_⟩
    · rw [List.getElem?_eq_getElem hdata]
      rfl
    · rw [hkd]
      rfl
  · intro index hx
    have hll9 : s.len = s.dense.length := rfl
    have hlt9 : index < s.dense.length := by
      by_contra hge
      rw [show s.get_id index = none from
        List.getElem?_eq_none (by omega)] at hx
      cases hx
    exact ⟨by omega, by omega⟩

theorem claim_C9_witness :
    Reachable sampleSet ∧ UncheckedSafety sampleSet :=
  ⟨sampleReachable, claim_C9 sampleReachable⟩

end SparseSet
